import Mathlib

/-!
Verification development for the webmcp extension.

The definitions below are a shallow embedding of the extension's source:

* the background navigation coordinator (`src/entrypoints/background.ts`:
  `handleNavigation` and its three per-tab tracking maps), split at its
  single `await` point into `phase1` (before the lookup call) and `phase2`
  (after the lookup call returns);
* the content-script tool registrar and step interpreter (`registerTools`,
  `executeTool`, `executeToolInner`, `executeStep`, `fillToolField`,
  `fillField`, `waitForSelector`, `waitForClickable`, `extractResult`,
  `query`, `queryAll`, `deepQuery`, `deepQueryAll`, `interpolate`,
  `normalizeText`, `matchesText`, `isVisible`, `checkState`, `mcpResult`);
* the data model of `src/types.ts` (`ToolField`, `ActionStep`,
  `ExecutionDescriptor`, `ToolDescriptor`, `WebMcpConfig`).

Modelling boundary (browser primitives consumed by the code, not defined by
it): the DOM is a purely functional tree (`DNode`); CSS matching
(`cssMatches`) interprets the subset of selectors the configs use (universal,
tag, id, class, attribute, comma lists) and compound selectors outside that
subset match no element; dispatching events, native clicks, `requestSubmit`,
`scrollIntoView` and inline script bodies act on page listeners outside the
model, so they leave the modelled DOM unchanged; polling waits observe a
quiescent document (one snapshot per poll, the trace-based
`waitForSelectorTrace` generalises this to a mutating page); dynamic JS
values are modelled by `JSVal` with JS string/truthiness coercions.
-/

namespace WebMcp

/-- A dynamically typed JS value as it appears in tool parameter maps. -/
inductive JSVal where
  | str (s : String)
  | num (n : Int)
  | bool (b : Bool)
  | null
  deriving DecidableEq

/-- JS `String(v)` coercion for the values of `JSVal`. -/
def jsToString : JSVal → String
  | .str s => s
  | .num n => toString n
  | .bool b => if b then "true" else "false"
  | .null => "null"

/-- JS `Boolean(v)` truthiness for the values of `JSVal`. -/
def jsTruthy : JSVal → Bool
  | .str s => s ≠ ""
  | .num n => n ≠ 0
  | .bool b => b
  | .null => false

/-- A `Record<string, unknown>` parameter map; absence models `undefined`. -/
def Params := List (String × JSVal)

/-- Property read `params[key]`. -/
def pget (params : Params) (key : String) : Option JSVal :=
  (List.find? (fun kv => kv.1 = key) params).map (fun kv => kv.2)

/-- Characters matched by the JS regex class `\w`. -/
def isWordChar (c : Char) : Bool :=
  (c ≥ 'a' && c ≤ 'z') || (c ≥ 'A' && c ≤ 'Z') || (c ≥ '0' && c ≤ '9') || c = '_'

/-- Characters matched by the JS regex class `\s` (ASCII portion). -/
def isSpaceJS (c : Char) : Bool :=
  c = ' ' || c = '\t' || c = '\n' || c = '\r' || c = '\x0b' || c = '\x0c'

/-- JS `String.prototype.trim` (whitespace stripped from both ends). -/
def jsTrim (s : String) : String :=
  String.mk (((s.data.dropWhile isSpaceJS).reverse.dropWhile isSpaceJS).reverse)

/-- Test whether the first character list starts the second one. -/
def listStartsWith : List Char → List Char → Bool
  | [], _ => true
  | _ :: _, [] => false
  | a :: as, b :: bs => a = b && listStartsWith as bs

/-- Occurrence of `sub` anywhere in `l`. -/
def listHasSub (sub : List Char) : List Char → Bool
  | [] => listStartsWith sub []
  | c :: r => listStartsWith sub (c :: r) || listHasSub sub r

/-- JS `a.includes(b)` substring test. -/
def strIncludes (s sub : String) : Bool :=
  listHasSub sub.data s.data

/-- Substitution text for one `\x7b\x7bkey\x7d\x7d` template hole:
JS `String(params[key] ?? "")`, where both a missing key and a `null`
value produce the empty string. -/
def holeText (params : Params) (key : String) : String :=
  match pget params key with
  | none => ""
  | some .null => ""
  | some v => jsToString v

/-- Scanner for `interpolate`:
`template.replace(/\x7b\x7b(\w+)\x7d\x7d/g, (_, key) => String(params[key] ?? ""))`.
At each position, a match needs two opening braces, a nonempty run of
word characters, and two closing braces; otherwise the scanner advances
one character, exactly as the global regex does. Every step consumes at
least one character, so the character count bounds the recursion; the
out-of-fuel case is unreachable when the scanner starts on the full
template. -/
def interpGo (params : Params) (fuel : Nat) (l : List Char) : List Char :=
  match fuel with
  | 0 => l
  | fuel + 1 =>
    match l with
    | '{' :: '{' :: rest =>
      let w := rest.takeWhile isWordChar
      if w.isEmpty then '{' :: interpGo params fuel ('{' :: rest)
      else
        match rest.drop w.length with
        | '}' :: '}' :: tail => (holeText params (String.mk w)).data ++ interpGo params fuel tail
        | _ => '{' :: interpGo params fuel ('{' :: rest)
    | c :: rest => c :: interpGo params fuel rest
    | [] => []

/-- The source's `interpolate(template, params)`. -/
def interpolate (template : String) (params : Params) : String :=
  String.mk (interpGo params template.data.length template.data)

/-! ## DOM model -/

/-- Per-element data of the modelled DOM. Tag names are stored lowercase.
`value`, `checked`, `disabled` model the corresponding element properties;
`styleDisplay`/`styleVisibility`/`styleOpacity` model the computed style and
`rectW`/`rectH` the bounding client rect consulted by `isVisible`;
`htmlEl` records whether the element is an `HTMLElement`;
`editable` models `isContentEditable`; `pasteHandled` records whether a page
editor consumes (prevents default on) a dispatched paste event; `pasted`
records the plain-text payload of the last paste event delivered to the
element. -/
structure ElData where
  tagName : String
  idAttr : String := ""
  classes : List String := []
  attrs : List (String × String) := []
  inputType : String := ""
  value : String := ""
  checked : Bool := false
  disabled : Bool := false
  htmlEl : Bool := true
  editable : Bool := false
  pasteHandled : Bool := false
  pasted : Option String := none
  styleDisplay : String := "block"
  styleVisibility : String := "visible"
  styleOpacity : String := "1"
  rectW : Nat := 1
  rectH : Nat := 1
  deriving DecidableEq

/-- A DOM node: a text node, or an element with light-DOM children and an
optional shadow root. -/
inductive DNode where
  | text (s : String)
  | el (data : ElData) (children : List DNode) (shadow : Option (List DNode))

/-- Element data of a node, when it is an element. -/
def DNode.dataOf : DNode → Option ElData
  | .text _ => none
  | .el d _ _ => some d

mutual

/-- `Node.textContent`: concatenated text of the subtree (light DOM only;
shadow trees do not contribute). -/
def nodeTextContent : DNode → String
  | .text s => s
  | .el _ cs _ => listTextContent cs

/-- Text content of a list of sibling nodes, in order. -/
def listTextContent : List DNode → String
  | [] => ""
  | n :: ns => nodeTextContent n ++ listTextContent ns

end

mutual

/-- The element itself followed by its light-DOM descendant elements in
document (preorder) order. -/
def nodeElems : DNode → List DNode
  | .text _ => []
  | .el d cs sh => .el d cs sh :: listElems cs

/-- All elements under a list of sibling roots, in document order.
This is `root.querySelectorAll("*")` before filtering. -/
def listElems : List DNode → List DNode
  | [] => []
  | n :: ns => nodeElems n ++ listElems ns

end

/-- `getAttribute`: first attribute with the given name, if any. -/
def getAttr (d : ElData) (name : String) : Option String :=
  (List.find? (fun kv => kv.1 = name) d.attrs).map (fun kv => kv.2)

/-- Characters allowed in the tag-name part of a simple selector. -/
def isTagChar (c : Char) : Bool :=
  isWordChar c || c = '-'

/-- Strip surrounding double quotes from an attribute value. -/
def unquote (l : List Char) : List Char :=
  match l with
  | '"' :: rest =>
    if rest.getLast? = some '"' && rest ≠ [] then rest.dropLast else l
  | _ => l

/-- Match the bracketed attribute part `[attr]` or `[attr="v"]` of a
simple selector. -/
def matchesAttrPart (inner : List Char) (d : ElData) : Bool :=
  if inner.contains '=' then
    let aname := inner.takeWhile (fun c => c ≠ '=')
    let aval := (inner.dropWhile (fun c => c ≠ '=')).drop 1
    getAttr d (String.mk aname) = some (String.mk (unquote aval))
  else
    (getAttr d (String.mk inner)).isSome

/-- Match one simple selector (after trimming): `*`, a tag name, `#id`,
`.class`, or `tag[attr]` / `tag[attr="v"]` with an optional tag part.
Selector strings outside this subset (e.g. with combinators) match no
element; the function models the browser engine only on the selector
forms the configs use. -/
def matchesSimple (sel : String) (d : ElData) : Bool :=
  match (sel.data.dropWhile isSpaceJS).reverse.dropWhile isSpaceJS |>.reverse with
  | [] => false
  | ['*'] => true
  | '#' :: rest => rest ≠ [] && d.idAttr = String.mk rest
  | '.' :: rest => rest ≠ [] && d.classes.contains (String.mk rest)
  | s =>
    let tag := s.takeWhile isTagChar
    let rest := s.dropWhile isTagChar
    let tagOk := tag.isEmpty || d.tagName = String.mk tag
    match rest with
    | [] => !tag.isEmpty && tagOk
    | '[' :: inner1 =>
      if inner1.getLast? = some ']' then tagOk && matchesAttrPart inner1.dropLast d
      else false
    | _ => false

/-- Split a selector list on commas (`"td, th"`). -/
def splitCommasGo (cur : List Char) : List Char → List String
  | [] => [String.mk cur.reverse]
  | c :: r => if c = ',' then String.mk cur.reverse :: splitCommasGo [] r else splitCommasGo (c :: cur) r

/-- Comma-separated alternatives of a selector string. -/
def splitCommas (s : String) : List String :=
  splitCommasGo [] s.data

/-- CSS matching of a selector string against one element's data:
any alternative of the comma-separated list matches. -/
def cssMatches (sel : String) (d : ElData) : Bool :=
  (splitCommas sel).any (fun part => matchesSimple part d)

/-- CSS matching lifted to nodes (text nodes match nothing). -/
def nodeMatches (sel : String) : DNode → Bool
  | .text _ => false
  | .el d _ _ => cssMatches sel d

/-- `root.querySelectorAll(sel)` over a list of sibling roots
(light DOM only). -/
def querySelectorAllList (sel : String) (roots : List DNode) : List DNode :=
  (listElems roots).filter (nodeMatches sel)

/-- `root.querySelector(sel)` over a list of sibling roots. -/
def querySelectorList (sel : String) (roots : List DNode) : Option DNode :=
  (listElems roots).find? (nodeMatches sel)

/-- `el.querySelector(sel)`: first matching light-DOM descendant
(the element itself excluded). -/
def elemQuerySelector (sel : String) : DNode → Option DNode
  | .text _ => none
  | .el _ cs _ => querySelectorList sel cs

/-- `el.querySelectorAll(sel)` over an element's light-DOM descendants. -/
def elemQuerySelectorAll (sel : String) : DNode → List DNode
  | .text _ => []
  | .el _ cs _ => querySelectorAllList sel cs

mutual

/-- Shadow-phase matches of `deepQueryAll` contributed by one node: the
full deep matches of its own shadow tree (if any), then the shadow-phase
matches of its light children — mirroring the source's in-order walk over
`root.querySelectorAll("*")` with recursion into each `shadowRoot`. -/
def deepShadowAll (sel : String) : DNode → List DNode
  | .text _ => []
  | .el _ cs sh =>
    (match sh with
     | some s => querySelectorAllList sel s ++ deepShadowAllL sel s
     | none => []) ++ deepShadowAllL sel cs

/-- Shadow-phase matches over a list of sibling nodes. -/
def deepShadowAllL (sel : String) : List DNode → List DNode
  | [] => []
  | n :: ns => deepShadowAll sel n ++ deepShadowAllL sel ns

end

/-- The source's `deepQueryAll(selector, root)`: all light-DOM matches of
the root first, then matches found by recursing into every shadow tree. -/
def deepQueryAll (sel : String) (roots : List DNode) : List DNode :=
  querySelectorAllList sel roots ++ deepShadowAllL sel roots

mutual

/-- Shadow-phase search of `deepQuery` contributed by one node: first the
deep search of its own shadow tree, then its light children's shadow
trees, in document order. -/
def deepShadowQ (sel : String) : DNode → Option DNode
  | .text _ => none
  | .el _ cs sh =>
    (match sh with
     | some s => querySelectorList sel s <|> deepShadowQL sel s
     | none => none) <|> deepShadowQL sel cs

/-- Shadow-phase search over a list of sibling nodes. -/
def deepShadowQL (sel : String) : List DNode → Option DNode
  | [] => none
  | n :: ns => deepShadowQ sel n <|> deepShadowQL sel ns

end

/-- The source's `deepQuery(selector, root)`: the first light-DOM match of
the root if any, otherwise the first match found by recursing into shadow
trees in document order. -/
def deepQuery (sel : String) (roots : List DNode) : Option DNode :=
  querySelectorList sel roots <|> deepShadowQL sel roots

/-! ## The `:has-text("...")` pseudo-selector -/

/-- Scan the body of a quoted string per the regex group
`((?:[^Q\\]|\\.)*)` for quote character `q`: any character other than the
quote and backslash (newlines included), or a backslash followed by any
character except newline. Returns the raw captured text (escapes are kept
unprocessed, as the source keeps them) and the remainder after the closing
quote. -/
def quotedScan (q : Char) (acc : List Char) : List Char → Option (List Char × List Char)
  | [] => none
  | c :: r =>
    if c = q then some (acc, r)
    else if c = '\\' then
      match r with
      | [] => none
      | c2 :: r2 => if c2 = '\n' then none else quotedScan q (acc ++ [c, c2]) r2
    else quotedScan q (acc ++ [c]) r

/-- Parse the parenthesised argument of `:has-text(...)`: a double- or a
single-quoted string followed by the closing parenthesis. Returns the raw
captured text and the remainder after `)`. -/
def hasTextArg (l : List Char) : Option (List Char × List Char) :=
  match l with
  | c :: r =>
    if c = '"' || c = Char.ofNat 39 then
      match quotedScan c [] r with
      | some (txt, rest) =>
        match rest with
        | ')' :: r2 => some (txt, r2)
        | _ => none
      | none => none
    else none
  | [] => none

/-- One attempt of the regex
`^(.+?):has-text\((?:"((?:[^"\\]|\\.)*)"|...('...'))\)\s*(.*)$` at a fixed
split point: the accumulated `base` must be nonempty, the remainder must
start with `:has-text(` followed by a well-formed quoted argument and `)`,
then greedy `\s*`, and the captured suffix (the trailing `(.*)`) must not
contain a newline (`.` does not match newlines). -/
def hasTextAt (base : List Char) (rest : List Char) : Option (String × String × String) :=
  if base.isEmpty then none
  else if listStartsWith ":has-text(".data rest then
    match hasTextArg (rest.drop 10) with
    | some (txt, after) =>
      let suffix := after.dropWhile isSpaceJS
      if suffix.all (fun c => c ≠ '\n') then
        some (String.mk base, String.mk txt, String.mk suffix)
      else none
    | none => none
  else none

/-- Deterministic implementation of the source's `HAS_TEXT_RE` match: the
lazy `(.+?)` group makes the regex engine try the shortest base first, so
scan split points left to right; the base cannot contain a newline. -/
def hasTextGo (base : List Char) : List Char → Option (String × String × String)
  | [] => none
  | c :: rest =>
    match hasTextAt base (c :: rest) with
    | some res => some res
    | none => if c = '\n' then none else hasTextGo (base ++ [c]) rest

/-- `resolved.match(HAS_TEXT_RE)` as a partial parse: `some (base, text,
suffix)` when the selector uses the `:has-text` extension. -/
def matchHasText (s : String) : Option (String × String × String) :=
  hasTextGo [] s.data

/-- Whitespace-run collapsing for `normalizeText`
(`replace(/\s+/g, " ")`): the flag records whether the previous character
belonged to a whitespace run already collapsed to one space. -/
def collapseGo (inRun : Bool) : List Char → List Char
  | [] => []
  | c :: r =>
    if isSpaceJS c then
      if inRun then collapseGo true r else ' ' :: collapseGo true r
    else c :: collapseGo false r

/-- The source's `normalizeText(el)`: text content with whitespace runs
collapsed to single spaces, then trimmed. -/
def normalizeText (n : DNode) : String :=
  jsTrim (String.mk (collapseGo false (nodeTextContent n).data))

/-- The source's `matchesText(el, text)`:
`normalizeText(el).includes(text.trim())`. -/
def matchesText (n : DNode) (text : String) : Bool :=
  strIncludes (normalizeText n) (jsTrim text)

/-- The source's `query(selector, params?)`: template-interpolate when
parameters are supplied, split off a `:has-text` extension if present;
without the extension fall through to `deepQuery`; with it, take the first
deep match of the base whose normalized text contains the text, then
descend to the suffix (plain `querySelector`) when a suffix is present. -/
def query (sel : String) (params : Option Params) (dom : List DNode) : Option DNode :=
  let resolved := match params with
    | some p => interpolate sel p
    | none => sel
  match matchHasText resolved with
  | none => deepQuery resolved dom
  | some (base, text, suffix) =>
    match (deepQueryAll base dom).find? (fun el => matchesText el text) with
    | some el => if suffix ≠ "" then elemQuerySelector suffix el else some el
    | none => none

/-- The source's `queryAll(selector, params?)`: like `query` but keeping
every text-matching element; with a suffix, each match's first suffix
descendant is kept when it exists. -/
def queryAll (sel : String) (params : Option Params) (dom : List DNode) : List DNode :=
  let resolved := match params with
    | some p => interpolate sel p
    | none => sel
  match matchHasText resolved with
  | none => deepQueryAll resolved dom
  | some (base, text, suffix) =>
    ((deepQueryAll base dom).filter (fun el => matchesText el text)).filterMap
      (fun el => if suffix ≠ "" then elemQuerySelector suffix el else some el)

/-! ## Visibility, state checks and waits -/

/-- The source's `isVisible(el)`: `HTMLElement`s not hidden by
`display:none`, `visibility:hidden`, zero opacity, or an empty bounding
rect. -/
def isVisible (n : DNode) : Bool :=
  match n.dataOf with
  | none => false
  | some d =>
    d.htmlEl &&
    !(d.styleDisplay = "none") &&
    !(d.styleVisibility = "hidden") &&
    !(d.styleOpacity = "0") &&
    !(d.rectW = 0 && d.rectH = 0)

/-- The source's `checkState(el, state)` used by condition steps: `hidden`
holds when the element is absent or invisible, `exists` when it is
present; any other state behaves as `visible`. -/
def checkState (el : Option DNode) (state : String) : Bool :=
  if state = "hidden" then el.isNone || !(isVisible (el.getD (.text "")))
  else if state = "exists" then el.isSome
  else el.isSome && isVisible (el.getD (.text ""))

/-- One poll of `waitForSelector`'s `check` resolves on this document
snapshot: `hidden` needs the query to find no element at all, `exists`
needs any element, `visible` needs a visible one; any other state never
resolves. -/
def waitResolved (dom : List DNode) (sel : String) (state : String) : Bool :=
  let el := query sel none dom
  (state = "hidden" && el.isNone) ||
  (state = "exists" && el.isSome) ||
  (state = "visible" && el.isSome && isVisible (el.getD (.text "")))

/-- The source's `waitForSelector(selector, state, timeout)` over a trace
of document snapshots, one per animation-frame poll; exhausting the trace
is the timeout and rejects with the source's timeout message. -/
def waitForSelectorTrace (doms : List (List DNode)) (sel : String)
    (state : String) : Except String Unit :=
  match doms with
  | [] => .error ("Timeout waiting for " ++ sel)
  | d :: ds =>
    if waitResolved d sel state then .ok ()
    else waitForSelectorTrace ds sel state

/-- The source's `waitForClickable(selector, params, timeout)` specialised
to a quiescent document: resolve the element when it is visible and not
disabled, otherwise time out to `null`. -/
def waitForClickable (sel : String) (params : Params) (dom : List DNode) : Option DNode :=
  match query sel (some params) dom with
  | some el =>
    if isVisible el && !((el.dataOf.getD {tagName := ""}).disabled) then some el
    else none
  | none => none

/-! ## Result extraction -/

mutual

/-- Serialisation of child markup for `innerHTML` reads (attribute
serialisation is omitted by the model). -/
def nodeMarkup : DNode → String
  | .text s => s
  | .el d cs _ => "<" ++ d.tagName ++ ">" ++ listMarkup cs ++ "</" ++ d.tagName ++ ">"

/-- Markup of a node list. -/
def listMarkup : List DNode → String
  | [] => ""
  | n :: ns => nodeMarkup n ++ listMarkup ns

end

/-- `el.innerHTML`. -/
def innerHTML : DNode → String
  | .text _ => ""
  | .el _ cs _ => listMarkup cs

/-- A step/extraction result value (JS `unknown`): a string, a string
array (list mode), or an array of string arrays (table mode). -/
inductive StepVal where
  | s (v : String)
  | list (v : List String)
  | table (v : List (List String))
  deriving DecidableEq

/-- JS `String(v)` for result values: arrays stringify as comma-joined
rows. -/
def stepValString : StepVal → String
  | .s v => v
  | .list v => String.intercalate "," v
  | .table v => String.intercalate "," (v.map (String.intercalate ","))

/-- The source's `extractResult(selector, mode, attribute?)`. `list` maps
trimmed text over every match; `table` maps `td, th` cell texts over every
`tr` under the selector; otherwise the single queried element yields its
html, the requested attribute, or trimmed text; `none` models JS `null`. -/
def extractResult (dom : List DNode) (sel : String) (mode : String)
    (attrName : Option String) : Option StepVal :=
  if mode = "list" then
    some (.list ((queryAll sel none dom).map (fun el => jsTrim (nodeTextContent el))))
  else if mode = "table" then
    some (.table ((queryAll (sel ++ " tr") none dom).map (fun row =>
      (elemQuerySelectorAll "td, th" row).map (fun c => jsTrim (nodeTextContent c)))))
  else
    match query sel none dom with
    | none => none
    | some el =>
      if mode = "html" then some (.s (innerHTML el))
      else if mode = "attribute" && attrName.getD "" ≠ "" then
        match getAttr (el.dataOf.getD {tagName := ""}) (attrName.getD "") with
        | some v => some (.s v)
        | none => none
      else some (.s (jsTrim (nodeTextContent el)))

/-! ## Functional DOM updates

The field writer mutates the element that `deepQuery` resolves. In the
functional model this is a rebuild of the tree replacing the first node
(in exactly `deepQuery`'s search order) satisfying a predicate. -/

mutual

/-- Replace the first node satisfying `p` (preorder, self before light
children) in this subtree; `none` when no node matches. -/
def updNode (p : DNode → Bool) (f : DNode → DNode) : DNode → Option DNode
  | .text s => if p (.text s) then some (f (.text s)) else none
  | .el d cs sh =>
    if p (.el d cs sh) then some (f (.el d cs sh))
    else
      match updList p f cs with
      | some cs2 => some (.el d cs2 sh)
      | none => none

/-- Replace the first matching node across a sibling list. -/
def updList (p : DNode → Bool) (f : DNode → DNode) : List DNode → Option (List DNode)
  | [] => none
  | n :: ns =>
    match updNode p f n with
    | some n2 => some (n2 :: ns)
    | none =>
      match updList p f ns with
      | some ns2 => some (n :: ns2)
      | none => none

end

mutual

/-- Shadow-phase replacement mirroring `deepShadowQ`: first inside this
node's own shadow tree (light positions, then nested shadows), then
inside the shadow trees of its light children. -/
def updShadowNode (p : DNode → Bool) (f : DNode → DNode) : DNode → Option DNode
  | .text _ => none
  | .el d cs sh =>
    match sh with
    | some s =>
      match updList p f s with
      | some s2 => some (.el d cs (some s2))
      | none =>
        match updShadowList p f s with
        | some s2 => some (.el d cs (some s2))
        | none =>
          match updShadowList p f cs with
          | some cs2 => some (.el d cs2 (some s))
          | none => none
    | none =>
      match updShadowList p f cs with
      | some cs2 => some (.el d cs2 none)
      | none => none

/-- Shadow-phase replacement across a sibling list. -/
def updShadowList (p : DNode → Bool) (f : DNode → DNode) : List DNode → Option (List DNode)
  | [] => none
  | n :: ns =>
    match updShadowNode p f n with
    | some n2 => some (n2 :: ns)
    | none =>
      match updShadowList p f ns with
      | some ns2 => some (n :: ns2)
      | none => none

end

/-- Replace the element `deepQuery` would resolve (same search order). -/
def deepUpdate (p : DNode → Bool) (f : DNode → DNode) (roots : List DNode) :
    Option (List DNode) :=
  match updList p f roots with
  | some r => some r
  | none => updShadowList p f roots

/-! ## Field writer -/

/-- The predicate of the source's editable-descendant lookup
`el.querySelector(selector-for-contenteditable-not-false)`: the
`contenteditable` attribute present with any value except `"false"`. -/
def isEditableAttr (n : DNode) : Bool :=
  match n.dataOf with
  | some d =>
    match getAttr d "contenteditable" with
    | some v => v ≠ "false"
    | none => false
  | none => false

/-- Deliver a paste of `String(value)` to an editable element: the payload
is recorded; when no page editor consumes the event (`pasteHandled`
false), the source falls back to clearing the element and inserting the
text as a plain text node. A consuming editor's internal update is outside
the model. -/
def applyPaste (v : JSVal) : DNode → DNode
  | .text s => .text s
  | .el d cs sh =>
    let txt := jsToString v
    if d.pasteHandled then .el { d with pasted := some txt } cs sh
    else .el { d with pasted := some txt } [.text txt] sh

/-- The per-element mutation of the source's `fillField` once the element
is resolved: contenteditable self, else first contenteditable descendant,
else dispatch on select / checkbox / radio / text input kinds; any other
element is left untouched (the source falls through all `instanceof`
branches). Event dispatches notify page listeners outside the model. -/
def perElementFill (v : JSVal) (n : DNode) : DNode :=
  match n with
  | .text s => .text s
  | .el d cs sh =>
    if d.editable then applyPaste v (.el d cs sh)
    else
      match updList isEditableAttr (applyPaste v) cs with
      | some cs2 => .el d cs2 sh
      | none =>
        if d.tagName = "select" then .el { d with value := jsToString v } cs sh
        else if d.tagName = "input" && d.inputType = "checkbox" then
          .el { d with checked := jsTruthy v } cs sh
        else if d.tagName = "input" && d.inputType = "radio" then
          .el { d with checked := true } cs sh
        else if d.tagName = "input" || d.tagName = "textarea" then
          .el { d with value := jsToString v } cs sh
        else .el d cs sh

/-- The source's `fillField(selector, value)`: error string when the
element is not found, otherwise the branchwise write above applied at the
`deepQuery` position. -/
def fillField (sel : String) (v : JSVal) (dom : List DNode) :
    List DNode × Option String :=
  match deepQuery sel dom with
  | none => (dom, some ("Element not found: " ++ sel))
  | some _ => ((deepUpdate (nodeMatches sel) (perElementFill v) dom).getD dom, none)

/-- A radio option of a radio tool field (per-option selector). -/
structure RadioOption where
  value : String
  label : String
  selector : String
  deriving DecidableEq

/-- Set `el.checked = true` on the resolved radio option element. -/
def setChecked : DNode → DNode
  | .text s => .text s
  | .el d cs sh => .el { d with checked := true } cs sh

/-- A tool field per `types.ts` (`FieldBase` plus the union variants'
extras, discriminated by the `type` string). -/
structure ToolField where
  type : String
  selector : String
  name : String
  description : String := ""
  required : Bool := false
  defaultValue : Option JSVal := none
  options : Option (List RadioOption) := none
  deriving DecidableEq

/-- The source's `fillToolField(field, value)`: a radio field carrying an
options list checks the option whose value equals `String(value)` through
that option's own selector; every other field defers to `fillField`. -/
def fillToolField (field : ToolField) (v : JSVal) (dom : List DNode) :
    List DNode × Option String :=
  if field.type = "radio" && field.options.isSome then
    match (field.options.getD []).find? (fun o => o.value = jsToString v) with
    | none => (dom, some ("No radio option matches value \"" ++ jsToString v ++ "\""))
    | some o =>
      match deepQuery o.selector dom with
      | none => (dom, some ("Radio option element not found: " ++ o.selector))
      | some _ => ((deepUpdate (nodeMatches o.selector) setChecked dom).getD dom, none)
  else fillField field.selector v dom

/-! ## Action steps and execution descriptors (`types.ts`) -/

/-- An action step per `types.ts` (discriminated union on `action`),
plus the interpreter's `evaluate` arm (an inline script body; the source
interpreter handles it although the published union omits it). `condition`
carries the nested `then`/`else` sequences — the only recursion. -/
inductive ActionStep where
  | navigate (url : String)
  | click (selector : String)
  | fill (selector : String) (value : String)
  | select (selector : String) (value : String)
  | wait (selector : String) (state : Option String) (timeout : Option Nat)
  | extract (selector : String) (mode : String) (attrName : Option String)
  | scroll (selector : String)
  | condition (selector : String) (state : String)
      (thenSteps : List ActionStep) (elseSteps : Option (List ActionStep))
  | evaluate (value : Option String)

/-- An execution descriptor per `types.ts`. `resultRequired` is read by
the interpreter though absent from the published interface; it defaults to
false (JS `undefined` is falsy). -/
structure ExecutionDescriptor where
  selector : String
  fields : Option (List ToolField) := none
  autosubmit : Bool := false
  submitAction : Option String := none
  submitSelector : Option String := none
  resultSelector : Option String := none
  resultExtract : Option String := none
  resultAttribute : Option String := none
  steps : Option (List ActionStep) := none
  resultDelay : Option Nat := none
  resultWaitSelector : Option String := none
  resultRequired : Bool := false

/-- A tool descriptor per `types.ts`; tools without an `execution` body
are inert. `annots` models the optional `annotations` record. -/
structure ToolDescriptor where
  name : String
  description : String := ""
  inputSchema : List (String × JSVal) := []
  annots : Option (List (String × String)) := none
  execution : Option ExecutionDescriptor := none

/-- A remote config record per `types.ts`. -/
structure WebMcpConfig where
  id : String
  domain : String := ""
  urlPattern : String := ""
  pageType : Option String := none
  title : String := ""
  description : String := ""
  tools : List ToolDescriptor := []
  contributor : String := ""
  version : Nat := 1
  createdAt : String := ""
  updatedAt : String := ""
  tags : Option (List String) := none

/-! ## Step interpreter -/

/-- The WebMCP result shape the source's `mcpResult(text)` builds. -/
structure MCPItem where
  type : String
  text : String
  deriving DecidableEq

/-- A tool execution result: `\x7bcontent: [\x7btype: "text", text\x7d]\x7d`. -/
structure MCPResult where
  content : List MCPItem
  deriving DecidableEq

/-- The source's `mcpResult(text)`. -/
def mcpResult (text : String) : MCPResult :=
  ⟨[⟨"text", text⟩]⟩

/-- Page state threaded through an execution: the document plus the last
`window.location.href` assignment made by a navigate step. Native clicks,
key events, `requestSubmit`, `scrollIntoView` and inline scripts act on
page listeners outside the model. -/
structure Page where
  dom : List DNode
  navigatedTo : Option String := none

mutual

/-- The source's `executeStep(step, params)`: dispatch on the step kind,
returning the updated page and the step's result value (`none` = null). -/
def executeStep (step : ActionStep) (params : Params) (pg : Page) : Page × Option StepVal :=
  match step with
  | .navigate url =>
    let u := interpolate url params
    ({ pg with navigatedTo := some u }, some (.s ("Navigating to " ++ u)))
  | .click sel =>
    match waitForClickable sel params pg.dom with
    | none => (pg, some (.s ("Error: Click target not found or not clickable: " ++ sel)))
    | some _ => (pg, none)
  | .fill sel value =>
    let v := interpolate value params
    let (dom2, err) := fillField sel (.str v) pg.dom
    ({ pg with dom := dom2 },
     match err with
     | some e => some (.s ("Error: " ++ e))
     | none => none)
  | .select sel value =>
    let v := interpolate value params
    let (dom2, err) := fillField sel (.str v) pg.dom
    ({ pg with dom := dom2 },
     match err with
     | some e => some (.s ("Error: " ++ e))
     | none => none)
  | .wait sel state _ =>
    match waitForSelectorTrace [pg.dom] sel (state.getD "visible") with
    | _ => (pg, none)
  | .extract sel mode _ =>
    (pg, extractResult pg.dom sel mode none)
  | .scroll sel =>
    match query sel (some params) pg.dom with
    | none => (pg, some (.s ("Error: Scroll target not found: " ++ sel)))
    | some _ => (pg, none)
  | .condition sel state thenSteps elseSteps =>
    let el := query sel (some params) pg.dom
    if checkState el state then executeSteps thenSteps params pg
    else
      match elseSteps with
      | some b => executeSteps b params pg
      | none => (pg, none)
  | .evaluate _ =>
    (pg, none)

/-- The interpreter's sequential loop: thread the page through the steps,
the overall value being the final step's result (`none` for an empty
list, matching the loop's `null` initialisation and per-step
overwriting). -/
def executeSteps (steps : List ActionStep) (params : Params) (pg : Page) : Page × Option StepVal :=
  match steps with
  | [] => (pg, none)
  | s :: rest =>
    match executeStep s params pg with
    | (pg2, r) =>
      match rest with
      | [] => (pg2, r)
      | s2 :: rest2 => executeSteps (s2 :: rest2) params pg2

end

/-- The fields loop of simple mode: a field whose parameter is absent
(`undefined`) is skipped; present fields are written in order, fill
errors accumulating as warning lines. -/
def runFields (fields : List ToolField) (params : Params) (dom : List DNode) :
    List DNode × List String :=
  match fields with
  | [] => (dom, [])
  | f :: fs =>
    match pget params f.name with
    | none => runFields fs params dom
    | some v =>
      let (dom2, err) := fillToolField f v dom
      let (dom3, errs) := runFields fs params dom2
      (dom3,
       (match err with
        | some e => ["Field \"" ++ f.name ++ "\": " ++ e]
        | none => []) ++ errs)

/-- The no-submit result phase: optionally extract through
`resultSelector`; arrays join with newlines, null becomes "No result
found", and with no result selector the generic executed message. -/
def extractPhase (toolName : String) (exec : ExecutionDescriptor) (pg : Page) :
    Page × Except String MCPResult :=
  match exec.resultSelector with
  | some rs =>
    match extractResult pg.dom rs (exec.resultExtract.getD "text") exec.resultAttribute with
    | some (.list v) => (pg, .ok (mcpResult (String.intercalate "\n" v)))
    | some (.table v) =>
      (pg, .ok (mcpResult (String.intercalate "\n" (v.map (String.intercalate ",")))))
    | some (.s v) => (pg, .ok (mcpResult v))
    | none => (pg, .ok (mcpResult "No result found"))
  | none => (pg, .ok (mcpResult ("Executed " ++ toolName)))

/-- The body of `executeToolInner` after the destructive-tool gate:
multi-step mode when `steps` is a nonempty list, otherwise simple mode
(fill fields, then submit / report fill errors / wait for and extract a
result). A required result wait that times out propagates its error to
the `executeTool` boundary; a non-required one is swallowed. -/
def executeToolMain (toolName : String) (exec : ExecutionDescriptor) (params : Params)
    (pg : Page) : Page × Except String MCPResult :=
  match exec.steps with
  | some (st :: sts) =>
    match executeSteps (st :: sts) params pg with
    | (pg2, lastR) =>
      (pg2, .ok (mcpResult (match lastR with
        | some v => stepValString v
        | none => "Executed " ++ toolName)))
  | _ =>
    let fr := runFields (exec.fields.getD []) params pg.dom
    let pg2 : Page := { pg with dom := fr.1 }
    let errs := fr.2
    if exec.autosubmit then
      let errorSuffix :=
        if errs ≠ [] then "\nWarnings:\n" ++ String.intercalate "\n" errs else ""
      if exec.submitAction = some "enter" then
        let target := match exec.fields with
          | some (f :: fs) => deepQuery ((f :: fs).getLast (by simp)).selector pg2.dom
          | _ => query exec.selector (some params) pg2.dom
        match target with
        | some _ => (pg2, .ok (mcpResult ("Submitted " ++ toolName ++ errorSuffix)))
        | none =>
          (pg2, .ok (mcpResult ("Error: Submit target not found for \"" ++ toolName ++
            "\". Selector: " ++ exec.selector ++ errorSuffix)))
      else
        let submitEl := match exec.submitSelector with
          | some ss => query ss (some params) pg2.dom
          | none => query (interpolate exec.selector params ++ " [type=\"submit\"]") none pg2.dom
        let clickTarget := submitEl <|> query exec.selector (some params) pg2.dom
        match clickTarget with
        | some _ => (pg2, .ok (mcpResult ("Submitted " ++ toolName ++ errorSuffix)))
        | none =>
          (pg2, .ok (mcpResult ("Error: Submit button not found for \"" ++ toolName ++
            "\". Selector: " ++ (exec.submitSelector.getD exec.selector) ++ errorSuffix)))
    else if errs ≠ [] then
      (pg2, .ok (mcpResult ("Error filling fields for \"" ++ toolName ++ "\":\n" ++
        String.intercalate "\n" errs)))
    else
      match exec.resultWaitSelector with
      | some ws =>
        if exec.resultRequired then
          match waitForSelectorTrace [pg2.dom] ws "visible" with
          | .ok _ => extractPhase toolName exec pg2
          | .error e => (pg2, .error e)
        else extractPhase toolName exec pg2
      | none => extractPhase toolName exec pg2

/-- Read of the optional `annotations` record. -/
def lookupAnnot (annots : Option (List (String × String))) (key : String) : Option String :=
  match annots with
  | none => none
  | some l => (List.find? (fun kv => kv.1 = key) l).map (fun kv => kv.2)

/-- The source's `executeToolInner`: when an agent handle is supplied and
the tool is annotated destructive, the confirmation gate runs first — a
falsy outcome (`agent = some false` models the round-trip answering no)
returns the cancellation result without running any step. Without an
agent handle the gate is skipped entirely. -/
def executeToolInner (toolName : String) (exec : ExecutionDescriptor) (params : Params)
    (agent : Option Bool) (annots : Option (List (String × String))) (pg : Page) :
    Page × Except String MCPResult :=
  if agent.isSome && lookupAnnot annots "destructiveHint" = some "true" then
    if agent.getD false then executeToolMain toolName exec params pg
    else (pg, .ok (mcpResult ("Tool \"" ++ toolName ++ "\" cancelled by user.")))
  else executeToolMain toolName exec params pg

/-- The source's `executeTool`: the failure boundary around
`executeToolInner` — a propagated error becomes a textual failure result
naming the tool; nothing escapes to the host. -/
def executeTool (toolName : String) (exec : ExecutionDescriptor) (params : Params)
    (agent : Option Bool) (annots : Option (List (String × String))) (pg : Page) :
    Page × MCPResult :=
  match executeToolInner toolName exec params agent annots pg with
  | (pg2, .ok r) => (pg2, r)
  | (pg2, .error m) => (pg2, mcpResult ("Error executing \"" ++ toolName ++ "\": " ++ m))

/-! ## Tool registrar (content script) -/

/-- One executable tool registration handed to the host tool API. The
`execute` closure binds the tool's name, execution descriptor and
annotations; the model records those bound values. -/
structure ToolReg where
  name : String
  description : String
  inputSchema : List (String × JSVal)
  annots : Option (List (String × String))
  execution : ExecutionDescriptor

/-- The tool-building walk of the source's `registerTools`: configs in
order, each config's tools in order; a tool is skipped when it has no
execution body, when its name was already registered in this pass (first
occurrence wins), or when its name collides with a page-declared
(declarative) tool. `seen` is the set of names registered so far. -/
def registerToolsGo (decl : List String) (seen : List String) :
    List ToolDescriptor → List ToolReg
  | [] => []
  | t :: ts =>
    match t.execution with
    | none => registerToolsGo decl seen ts
    | some ex =>
      if t.name ∈ seen then registerToolsGo decl seen ts
      else if t.name ∈ decl then registerToolsGo decl seen ts
      else ⟨t.name, t.description, t.inputSchema, t.annots, ex⟩ ::
        registerToolsGo decl (t.name :: seen) ts

/-- The page-declared (declarative) tool names: every `form[toolname]`
element's nonempty `toolname` attribute. -/
def declarativeNames (dom : List DNode) : List String :=
  (querySelectorAllList "form[toolname]" dom).filterMap (fun n =>
    match n.dataOf with
    | some d =>
      match getAttr d "toolname" with
      | some nm => if nm ≠ "" then some nm else none
      | none => none
    | none => none)

/-- The source's `registerTools(configs)` tool-set computation: the full
replacement registration set (delivered atomically via `provideContext`
when available, else by unregister/register pairs — either way this list
is what ends up registered, and its names become the tracked set). -/
def registerTools (dom : List DNode) (configs : List WebMcpConfig) : List ToolReg :=
  registerToolsGo (declarativeNames dom) [] (configs.flatMap (fun c => c.tools))

/-! ## Navigation coordinator (background script) -/

/-- Lookup in a JS `Map<number, V>` modelled as an association list. -/
def mapGet (m : List (Nat × α)) (k : Nat) : Option α :=
  (List.find? (fun kv => kv.1 = k) m).map (fun kv => kv.2)

/-- `Map.set`: overwrite the existing binding or append a new one. -/
def mapSet (m : List (Nat × α)) (k : Nat) (v : α) : List (Nat × α) :=
  match m with
  | [] => [(k, v)]
  | kv :: rest => if kv.1 = k then (k, v) :: rest else kv :: mapSet rest k v

/-- `Map.delete`. -/
def mapDel (m : List (Nat × α)) (k : Nat) : List (Nat × α) :=
  m.filter (fun kv => kv.1 ≠ k)

/-- A per-tab session storage entry `\x7bconfigs, domain, timestamp\x7d`. -/
structure SessionEntry where
  configs : List WebMcpConfig
  domain : String
  timestamp : Nat

/-- The background script's state: the three per-tab tracking maps and the
contents of session storage (keyed by tab id, modelling the `tab-<id>`
keys). -/
structure BgState where
  lastUrl : List (Nat × String) := []
  navSeq : List (Nat × Nat) := []
  registeredDomain : List (Nat × String) := []
  session : List (Nat × SessionEntry) := []

/-- A parsed `new URL(rawUrl)` as consumed by `handleNavigation`:
`port` is the empty string when the URL carries the scheme's default
port, as the browser's URL parser reports it. -/
structure URLParts where
  hostname : String
  port : String := ""
  pathname : String := "/"

/-- The host with a leading `www.` stripped
(`url.hostname.replace(/^www\./, "")`). -/
def stripWww (host : String) : String :=
  if listStartsWith "www.".data host.data then String.mk (host.data.drop 4) else host

/-- The domain key: host plus `:port` only when the port is nonempty and
neither 80 nor 443. -/
def urlDomain (u : URLParts) : String :=
  let host := stripWww u.hostname
  if u.port ≠ "" && u.port ≠ "80" && u.port ≠ "443" then host ++ ":" ++ u.port
  else host

/-- The normalized URL `domain + pathname` (protocol and query dropped). -/
def normalizeUrl (u : URLParts) : String :=
  urlDomain u ++ u.pathname

/-- The lookup call `handleNavigation` issues (always with the
executable-only filter), tagged with the sequence number captured before
the await. -/
structure LookupCall where
  domain : String
  url : String
  seq : Nat

/-- `handleNavigation` up to its `await`: normalize the URL; if it equals
the last processed one for this tab, return with no lookup and no state
change (dedup); otherwise record it, bump the per-tab sequence counter,
and issue the lookup. -/
def handleNavigationBefore (st : BgState) (tabId : Nat) (u : URLParts) :
    BgState × Option LookupCall :=
  let domain := urlDomain u
  let normalizedUrl := domain ++ u.pathname
  if mapGet st.lastUrl tabId = some normalizedUrl then (st, none)
  else
    let st1 := { st with lastUrl := mapSet st.lastUrl tabId normalizedUrl }
    let seq := (mapGet st1.navSeq tabId).getD 0 + 1
    ({ st1 with navSeq := mapSet st1.navSeq tabId seq },
     some ⟨domain, normalizedUrl, seq⟩)

/-- Externally visible effects of the post-await half: the session-storage
write and the `CONFIGS_FOUND` notification payload, when they happen. -/
structure NavEffects where
  stored : Option SessionEntry := none
  message : Option (List WebMcpConfig) := none

/-- `handleNavigation` after its `await`, applied to the state current at
resumption (other navigations may have run meanwhile): discard the result
when the tab's sequence counter no longer equals the captured value;
otherwise apply the zero-config/domain-unchanged suppression, or persist
`\x7bconfigs, domain, timestamp\x7d` and notify the page side. -/
def handleNavigationAfter (st : BgState) (tabId : Nat) (seq : Nat) (domain : String)
    (configs : List WebMcpConfig) (now : Nat) : BgState × NavEffects :=
  if mapGet st.navSeq tabId ≠ some seq then (st, {})
  else
    let prevDomain := mapGet st.registeredDomain tabId
    let domainChanged := prevDomain.isSome && prevDomain ≠ some domain
    if configs.isEmpty && !domainChanged then (st, {})
    else
      let entry : SessionEntry := ⟨configs, domain, now⟩
      ({ st with
          registeredDomain := mapSet st.registeredDomain tabId domain,
          session := mapSet st.session tabId entry },
       { stored := some entry, message := some configs })

/-- The `webNavigation.onCompleted` listener's reset (top frame): clear
dedup and registered-domain tracking so a fresh lookup always runs. -/
def onFullNavigationReset (st : BgState) (tabId : Nat) : BgState :=
  { st with lastUrl := mapDel st.lastUrl tabId,
            registeredDomain := mapDel st.registeredDomain tabId }

/-- The `tabs.onRemoved` cleanup: drop the session entry and all three
tracking maps for the closed tab. -/
def onTabRemoved (st : BgState) (tabId : Nat) : BgState :=
  { lastUrl := mapDel st.lastUrl tabId,
    navSeq := mapDel st.navSeq tabId,
    registeredDomain := mapDel st.registeredDomain tabId,
    session := mapDel st.session tabId }

/-! ## Execution traces and concrete scenarios -/

/-- The per-step results of the interpreter loop, in execution order
(instrumentation of `executeSteps`: same threading of the page, but every
step's result is kept rather than overwritten). -/
def executeStepsTrace (steps : List ActionStep) (params : Params) (pg : Page) :
    Page × List (Option StepVal) :=
  match steps with
  | [] => (pg, [])
  | s :: rest =>
    match executeStep s params pg with
    | (pg2, r) =>
      match executeStepsTrace rest params pg2 with
      | (pg3, rs) => (pg3, r :: rs)

/-- Modelled from the spec: "the last non-null step result among the
executed steps" — the value the multi-step result text is claimed to
stringify. -/
def lastNonNullResult (rs : List (Option StepVal)) : Option StepVal :=
  (rs.filterMap id).getLast?

/-- A button with the given label text. -/
def labelButton (t : String) : DNode :=
  .el { tagName := "button" } [.text t] none

/-- A shadow host whose shadow tree holds the Submit button. -/
def widgetHost : DNode :=
  .el { tagName := "my-widget" } [] (some [labelButton "Submit now"])

/-- A document with three buttons of which exactly one contains "Submit",
that one shadow-hosted. -/
def threeButtonDom : List DNode :=
  [.el { tagName := "body" } [labelButton "Cancel", labelButton "Ok", widgetHost] none]

/-- A document with one `div#a` containing "hello". -/
def helloDom : List DNode :=
  [.el { tagName := "div", idAttr := "a" } [.text "hello"] none]

/-- A multi-step execution: an extract (non-null result) followed by a
wait (null result). -/
def extractThenWaitExec : ExecutionDescriptor :=
  { selector := "", steps := some [.extract "#a" "text" none, .wait "#b" (some "hidden") none] }

/-- A simple execution whose required result wait targets an absent
element. -/
def requiredWaitExec : ExecutionDescriptor :=
  { selector := "", resultWaitSelector := some "#zz", resultRequired := true }

/-- A multi-step execution with a single DOM-mutating fill step. -/
def fillStepExec : ExecutionDescriptor :=
  { selector := "", steps := some [.fill "input" "pwned"] }

/-- A document with one empty text input. -/
def inputDom : List DNode :=
  [.el { tagName := "input" } [] none]

/-- An element that exists but is invisible (`display: none`). -/
def hiddenDiv : DNode :=
  .el { tagName := "div", idAttr := "x", styleDisplay := "none" } [] none

/-- A field that is required and carries a default value. -/
def requiredDefaultField : ToolField :=
  { type := "text", selector := "#q", name := "q", required := true,
    defaultValue := some (.str "dflt") }

/-- A page declaring one native tool named "native". -/
def regDemoDom : List DNode :=
  [.el { tagName := "form", attrs := [("toolname", "native")] } [] none]

/-- Configs with an executable tool "a", a conflicting "native" tool, a
duplicate "a", and an inert "b". -/
def regDemoConfigs : List WebMcpConfig :=
  [{ id := "c1",
     tools := [
       { name := "a", execution := some { selector := "" } },
       { name := "native", execution := some { selector := "" } },
       { name := "a", execution := some { selector := "#dup" } },
       { name := "b" }] }]

/-! ## Theorems -/

/-- C7: for every tab, a repeated navigation event whose normalized URL
(domain plus pathname, `www.` stripped, `:port` only for non-default
ports, protocol and query dropped) equals the last normalized URL
processed for that tab triggers zero lookup calls: `handleNavigation`
returns before issuing the lookup and before bumping the sequence
counter, leaving the state unchanged. -/
theorem c7_dedup_means_no_lookup (st : BgState) (tabId : Nat) (u : URLParts)
    (h : mapGet st.lastUrl tabId = some (normalizeUrl u)) :
    handleNavigationBefore st tabId u = (st, none) := by
  simp only [normalizeUrl] at h
  simp [handleNavigationBefore, h]

/-- Witness for C7 at a concrete repeated in-page navigation. -/
theorem c7_witness :
    mapGet (BgState.lastUrl { lastUrl := [(1, "x.com/p")] }) 1 =
      some (normalizeUrl { hostname := "www.x.com", port := "", pathname := "/p" }) ∧
    handleNavigationBefore { lastUrl := [(1, "x.com/p")] } 1
      { hostname := "www.x.com", port := "", pathname := "/p" } =
      ({ lastUrl := [(1, "x.com/p")] }, none) := by
  have h : mapGet (BgState.lastUrl { lastUrl := [(1, "x.com/p")] }) 1 =
      some (normalizeUrl { hostname := "www.x.com", port := "", pathname := "/p" }) := by
    decide
  exact ⟨h, c7_dedup_means_no_lookup _ _ _ h⟩

/-- C2: a lookup response arriving when the tab's sequence counter no
longer equals the value captured before the call is discarded: the state
(including the registered-domain map and session storage) is unchanged
and neither a session write nor a `CONFIGS_FOUND` notification happens. -/
theorem c2_stale_response_discarded (st : BgState) (tabId seq : Nat) (domain : String)
    (configs : List WebMcpConfig) (now : Nat)
    (h : mapGet st.navSeq tabId ≠ some seq) :
    handleNavigationAfter st tabId seq domain configs now = (st, ⟨none, none⟩) := by
  simp [handleNavigationAfter, h]

/-- Witness for C2: an empty sequence map never equals a captured
sequence number, so the response is dropped. -/
theorem c2_witness :
    handleNavigationAfter {} 5 1 "x.com" [] 99 = ({}, ⟨none, none⟩) :=
  c2_stale_response_discarded _ _ _ _ _ _ (by simp [mapGet])

/-- C3: with a current sequence number, a zero-config lookup result for
the domain currently recorded as registered changes nothing (no session
write, no registered-domain update, no notification); a zero-config
result for a different domain than the recorded one overwrites the
session entry with `\x7bconfigs := [], domain, timestamp\x7d` and sends a
`CONFIGS_FOUND` notification carrying the empty config list. -/
theorem c3_zero_config_policy :
    (∀ (st : BgState) (tabId seq now : Nat) (domain : String),
      mapGet st.navSeq tabId = some seq →
      mapGet st.registeredDomain tabId = some domain →
      handleNavigationAfter st tabId seq domain [] now = (st, ⟨none, none⟩)) ∧
    (∀ (st : BgState) (tabId seq now : Nat) (domain prev : String),
      mapGet st.navSeq tabId = some seq →
      mapGet st.registeredDomain tabId = some prev →
      prev ≠ domain →
      handleNavigationAfter st tabId seq domain [] now =
        ({ st with
            registeredDomain := mapSet st.registeredDomain tabId domain,
            session := mapSet st.session tabId ⟨[], domain, now⟩ },
         ⟨some ⟨[], domain, now⟩, some []⟩)) := by
  constructor
  · intro st tabId seq now domain hseq hreg
    simp [handleNavigationAfter, hseq, hreg]
  · intro st tabId seq now domain prev hseq hreg hne
    simp [handleNavigationAfter, hseq, hreg, hne]

/-- Every registered tool avoids the declarative names and the
already-seen names, and stems from a walked descriptor carrying an
execution body. -/
theorem registerToolsGo_mem {decl seen : List String} {ts : List ToolDescriptor}
    {r : ToolReg} (hr : r ∈ registerToolsGo decl seen ts) :
    r.name ∉ decl ∧ r.name ∉ seen ∧
    ∃ t ∈ ts, t.name = r.name ∧ t.execution = some r.execution := by
  induction ts generalizing seen with
  | nil => simp [registerToolsGo] at hr
  | cons t ts ih =>
    rw [registerToolsGo] at hr
    cases hex : t.execution with
    | none =>
      simp only [hex] at hr
      obtain ⟨h1, h2, t2, ht2, h3⟩ := ih hr
      exact ⟨h1, h2, t2, List.mem_cons_of_mem _ ht2, h3⟩
    | some ex =>
      simp only [hex] at hr
      by_cases hseen : t.name ∈ seen
      · rw [if_pos hseen] at hr
        obtain ⟨h1, h2, t2, ht2, h3⟩ := ih hr
        exact ⟨h1, h2, t2, List.mem_cons_of_mem _ ht2, h3⟩
      · rw [if_neg hseen] at hr
        by_cases hdecl : t.name ∈ decl
        · rw [if_pos hdecl] at hr
          obtain ⟨h1, h2, t2, ht2, h3⟩ := ih hr
          exact ⟨h1, h2, t2, List.mem_cons_of_mem _ ht2, h3⟩
        · rw [if_neg hdecl] at hr
          rcases List.mem_cons.mp hr with heq | htail
          · subst heq
            exact ⟨hdecl, hseen, t, List.mem_cons_self _ _, rfl, hex⟩
          · obtain ⟨h1, h2, t2, ht2, h3⟩ := ih htail
            exact ⟨h1, fun hs => h2 (List.mem_cons_of_mem _ hs), t2,
              List.mem_cons_of_mem _ ht2, h3⟩

/-- The registered names carry no duplicates: first occurrence wins. -/
theorem registerToolsGo_names_nodup (decl : List String) :
    ∀ (seen : List String) (ts : List ToolDescriptor),
      ((registerToolsGo decl seen ts).map ToolReg.name).Nodup := by
  intro seen ts
  induction ts generalizing seen with
  | nil => simp [registerToolsGo]
  | cons t ts ih =>
    rw [registerToolsGo]
    cases hex : t.execution with
    | none => simp only [hex]; exact ih seen
    | some ex =>
      simp only [hex]
      by_cases hseen : t.name ∈ seen
      · rw [if_pos hseen]; exact ih seen
      · rw [if_neg hseen]
        by_cases hdecl : t.name ∈ decl
        · rw [if_pos hdecl]; exact ih seen
        · rw [if_neg hdecl]
          refine List.nodup_cons.mpr ⟨?_, ih (t.name :: seen)⟩
          intro hmem
          obtain ⟨r, hr, hname⟩ := List.mem_map.mp hmem
          exact (registerToolsGo_mem hr).2.1 (hname ▸ List.mem_cons_self _ _)

/-- Every walked tool with an execution body and a non-conflicting name
ends up registered under its name (unless the name was already taken). -/
theorem registerToolsGo_complete (decl : List String) :
    ∀ (seen : List String) (ts : List ToolDescriptor) (t : ToolDescriptor),
      t ∈ ts → t.execution.isSome → t.name ∉ decl →
      t.name ∈ (registerToolsGo decl seen ts).map ToolReg.name ∨ t.name ∈ seen := by
  intro seen ts
  induction ts generalizing seen with
  | nil => intro t ht; simp at ht
  | cons hd ts ih =>
    intro t ht hex hdecl
    rw [registerToolsGo]
    rcases List.mem_cons.mp ht with heq | htail
    · subst heq
      cases hx : t.execution with
      | none => rw [hx] at hex; simp at hex
      | some ex =>
        simp only [hx]
        by_cases hseen : t.name ∈ seen
        · exact Or.inr hseen
        · rw [if_neg hseen, if_neg hdecl]
          exact Or.inl (by simp)
    · cases hx : hd.execution with
      | none => simp only [hx]; exact ih seen t htail hex hdecl
      | some ex =>
        simp only [hx]
        by_cases hseen : hd.name ∈ seen
        · rw [if_pos hseen]; exact ih seen t htail hex hdecl
        · rw [if_neg hseen]
          by_cases hhdecl : hd.name ∈ decl
          · rw [if_pos hhdecl]; exact ih seen t htail hex hdecl
          · rw [if_neg hhdecl]
            rcases ih (hd.name :: seen) t htail hex hdecl with hin | hin
            · exact Or.inl (List.mem_cons_of_mem _ hin)
            · rcases List.mem_cons.mp hin with heq2 | hseen2
              · exact Or.inl (by simp [heq2])
              · exact Or.inr hseen2

/-- C4: over any config list and any page-declared name set, the
registrar registers exactly the tools that carry an execution body, whose
name is not already registered earlier in the in-order walk (first
occurrence wins, so the registered names are duplicate-free), and whose
name is not page-declared; in particular no registered tool's name is in
the page-native set, and every walked executable, non-conflicting tool
name does get registered. -/
theorem c4_registration_filter (dom : List DNode) (configs : List WebMcpConfig) :
    (∀ r ∈ registerTools dom configs, r.name ∉ declarativeNames dom) ∧
    ((registerTools dom configs).map ToolReg.name).Nodup ∧
    (∀ t ∈ configs.flatMap (fun c => c.tools), t.execution.isSome →
      t.name ∉ declarativeNames dom →
      t.name ∈ (registerTools dom configs).map ToolReg.name) ∧
    (∀ r ∈ registerTools dom configs, ∃ t ∈ configs.flatMap (fun c => c.tools),
      t.name = r.name ∧ t.execution = some r.execution) := by
  refine ⟨?_, ?_, ?_, ?_⟩
  · intro r hr; exact (registerToolsGo_mem hr).1
  · exact registerToolsGo_names_nodup _ [] _
  · intro t ht hex hdecl
    rcases registerToolsGo_complete (declarativeNames dom) [] _ t ht hex hdecl with h | h
    · exact h
    · simp at h
  · intro r hr; exact (registerToolsGo_mem hr).2.2

/-- Witness for C4: the demo page declares "native"; of the walked tools,
the first "a" is registered, the conflicting "native" and the inert "b"
are not, and the duplicate "a" does not register twice. -/
theorem c4_witness :
    ("a" ∈ (registerTools regDemoDom regDemoConfigs).map ToolReg.name) ∧
    ((registerTools regDemoDom regDemoConfigs).map ToolReg.name).Nodup ∧
    (registerTools regDemoDom regDemoConfigs).map ToolReg.name = ["a"] := by
  refine ⟨?_, (c4_registration_filter regDemoDom regDemoConfigs).2.1, by rfl⟩
  exact (c4_registration_filter regDemoDom regDemoConfigs).2.2.1
    { name := "a", execution := some { selector := "" } }
    (by simp [regDemoConfigs]) (by rfl) (by decide)

/-- Witness for C3: both halves at concrete tabs — a same-domain empty
result is ignored, a changed-domain empty result overwrites and notifies
with the empty list. -/
theorem c3_witness :
    handleNavigationAfter ⟨[], [(1, 1)], [(1, "a.com")], []⟩ 1 1 "a.com" [] 5 =
      (⟨[], [(1, 1)], [(1, "a.com")], []⟩, ⟨none, none⟩) ∧
    handleNavigationAfter ⟨[], [(2, 1)], [(2, "a.com")], []⟩ 2 1 "b.com" [] 7 =
      (⟨[], [(2, 1)], [(2, "b.com")], [(2, ⟨[], "b.com", 7⟩)]⟩,
       ⟨some ⟨[], "b.com", 7⟩, some []⟩) := by
  constructor
  · exact c3_zero_config_policy.1 _ _ _ _ _ (by simp [mapGet]) (by simp [mapGet])
  · have h := c3_zero_config_policy.2 ⟨[], [(2, 1)], [(2, "a.com")], []⟩ 2 1 7 "b.com" "a.com"
      (by simp [mapGet]) (by simp [mapGet]) (by simp)
    simpa [mapSet] using h

/-- C9: an element that the query resolves but that is invisible makes
the condition step's `hidden` check true — the condition step takes its
`then` branch — whereas the polling wait for state `hidden` never
resolves while the query keeps finding an element (visible or not): with
an element present at every poll it runs out its trace and rejects with
the timeout error. -/
theorem c9_hidden_check_vs_hidden_wait :
    (∀ (pg : Page) (sel : String) (params : Params) (el : DNode),
      query sel (some params) pg.dom = some el → isVisible el = false →
      checkState (query sel (some params) pg.dom) "hidden" = true ∧
      ∀ (thenB : List ActionStep) (elseB : Option (List ActionStep)),
        executeStep (.condition sel "hidden" thenB elseB) params pg =
          executeSteps thenB params pg) ∧
    (∀ (doms : List (List DNode)) (sel : String),
      (∀ d ∈ doms, (query sel none d).isSome) →
      waitForSelectorTrace doms sel "hidden" =
        .error ("Timeout waiting for " ++ sel)) := by
  constructor
  · intro pg sel params el hq hv
    have hcs : checkState (query sel (some params) pg.dom) "hidden" = true := by
      simp [checkState, hq, hv]
    refine ⟨hcs, fun thenB elseB => ?_⟩
    simp [executeStep.eq_def, hcs]
  · intro doms sel h
    induction doms with
    | nil => rfl
    | cons d ds ih =>
      rw [waitForSelectorTrace]
      have hw : waitResolved d sel "hidden" = false := by
        obtain ⟨el, hel⟩ := Option.isSome_iff_exists.mp (h d (List.mem_cons_self _ _))
        simp [waitResolved, hel]
      rw [hw]
      simp only [Bool.false_eq_true, if_false]
      exact ih (fun d2 hd2 => h d2 (List.mem_cons_of_mem _ hd2))

/-- Witness for C9: a `display:none` div that the query still finds —
the condition check says hidden, while a wait trace in which the element
exists at its single poll times out. -/
theorem c9_witness :
    query "#x" (some []) [hiddenDiv] = some hiddenDiv ∧
    checkState (query "#x" (some []) [hiddenDiv]) "hidden" = true ∧
    waitForSelectorTrace [[hiddenDiv]] "#x" "hidden" =
      .error ("Timeout waiting for " ++ "#x") := by
  have h1 : query "#x" (some []) [hiddenDiv] = some hiddenDiv := by rfl
  have h2 : isVisible hiddenDiv = false := by rfl
  refine ⟨h1, ?_, ?_⟩
  · exact (c9_hidden_check_vs_hidden_wait.1 { dom := [hiddenDiv] } "#x" [] hiddenDiv h1 h2).1
  · refine c9_hidden_check_vs_hidden_wait.2 [[hiddenDiv]] "#x" ?_
    intro d hd
    have : d = [hiddenDiv] := by simpa using hd
    subst this
    rfl

/-- C8: on a selector of the form `base:has-text("text") suffix` (the
`HAS_TEXT_RE` split), single-element resolution walks every deep match of
the base — the whole document including every shadow tree — takes the
first whose whitespace-collapsed trimmed text content contains the text,
then descends to the suffix inside that match when a suffix is present,
and yields null when no element qualifies. Over a document with three
buttons of which exactly one contains "Submit" (that one shadow-hosted),
`button:has-text("Submit")` returns exactly that button. -/
theorem c8_has_text_resolution :
    (∀ (dom : List DNode) (s base text suffix : String),
      matchHasText s = some (base, text, suffix) →
      query s none dom =
        match (deepQueryAll base dom).find? (fun el => matchesText el text) with
        | some el => if suffix ≠ "" then elemQuerySelector suffix el else some el
        | none => none) ∧
    (∀ (dom : List DNode) (s base text : String),
      matchHasText s = some (base, text, "") →
      ∀ el, query s none dom = some el →
        el ∈ deepQueryAll base dom ∧ matchesText el text = true) ∧
    (∀ (dom : List DNode) (s base text suffix : String),
      matchHasText s = some (base, text, suffix) →
      (∀ el ∈ deepQueryAll base dom, matchesText el text = false) →
      query s none dom = none) ∧
    query "button:has-text(\"Submit\")" none threeButtonDom =
      some (labelButton "Submit now") := by
  refine ⟨?_, ?_, ?_, by rfl⟩
  · intro dom s base text suffix h
    simp [query, h]
  · intro dom s base text h el hel
    simp only [query, h] at hel
    cases hf : (deepQueryAll base dom).find? (fun e => matchesText e text) with
    | none => rw [hf] at hel; simp at hel
    | some el2 =>
      rw [hf] at hel
      simp at hel
      subst hel
      refine ⟨List.mem_of_find?_eq_some hf, ?_⟩
      have hp := List.find?_some hf
      simpa using hp
  · intro dom s base text suffix h hall
    have hf : (deepQueryAll base dom).find? (fun el => matchesText el text) = none := by
      rw [List.find?_eq_none]
      intro el hel
      simp [hall el hel]
    simp [query, h, hf]

/-- Witness for C8: the regex split of `button:has-text("Submit")` and
the resolution formula applied over the three-button document. -/
theorem c8_witness :
    matchHasText "button:has-text(\"Submit\")" = some ("button", "Submit", "") ∧
    query "button:has-text(\"Submit\")" none threeButtonDom =
      match (deepQueryAll "button" threeButtonDom).find?
          (fun el => matchesText el "Submit") with
      | some el => if ("" : String) ≠ "" then elemQuerySelector "" el else some el
      | none => none :=
  ⟨by rfl, c8_has_text_resolution.1 threeButtonDom _ "button" "Submit" "" (by rfl)⟩

/-- The extraction phase only ever returns results of the `mcpResult`
shape. -/
theorem extractPhase_shape (toolName : String) (exec : ExecutionDescriptor) (pg : Page) :
    ∃ t, (extractPhase toolName exec pg).2 = .ok (mcpResult t) := by
  unfold extractPhase
  split
  · split <;> exact ⟨_, rfl⟩
  · exact ⟨_, rfl⟩

/-- The gate-free body returns either an `mcpResult`-shaped success or a
propagated error message (only the required result wait produces one). -/
theorem executeToolMain_shape (toolName : String) (exec : ExecutionDescriptor)
    (params : Params) (pg : Page) :
    (∃ t, (executeToolMain toolName exec params pg).2 = .ok (mcpResult t)) ∨
    (∃ m, (executeToolMain toolName exec params pg).2 = .error m) := by
  unfold executeToolMain
  split
  · split
    exact Or.inl ⟨_, rfl⟩
  · dsimp only
    repeat' first
      | exact Or.inl ⟨_, rfl⟩
      | exact Or.inr ⟨_, rfl⟩
      | exact Or.inl (extractPhase_shape _ _ _)
      | split

/-- The inner execution returns either an `mcpResult`-shaped success or a
propagated error message. -/
theorem executeToolInner_shape (toolName : String) (exec : ExecutionDescriptor)
    (params : Params) (agent : Option Bool) (annots : Option (List (String × String)))
    (pg : Page) :
    (∃ t, (executeToolInner toolName exec params agent annots pg).2 = .ok (mcpResult t)) ∨
    (∃ m, (executeToolInner toolName exec params agent annots pg).2 = .error m) := by
  unfold executeToolInner
  split
  · split
    · exact executeToolMain_shape _ _ _ _
    · exact Or.inl ⟨_, rfl⟩
  · exact executeToolMain_shape _ _ _ _

/-- C1: the tool execution entry point never lets an error escape — for
every descriptor, parameter map, agent handle, annotation record and
page, the result is of the shape `\x7bcontent: [\x7btype: "text",
text\x7d]\x7d`, and any error propagated out of the inner execution is
returned as a textual failure result naming the tool. -/
theorem c1_failure_boundary (toolName : String) (exec : ExecutionDescriptor)
    (params : Params) (agent : Option Bool) (annots : Option (List (String × String)))
    (pg : Page) :
    (∃ t, (executeTool toolName exec params agent annots pg).2 = mcpResult t) ∧
    (∀ m, (executeToolInner toolName exec params agent annots pg).2 = .error m →
      (executeTool toolName exec params agent annots pg).2 =
        mcpResult ("Error executing \"" ++ toolName ++ "\": " ++ m)) := by
  constructor
  · rcases hs : executeToolInner toolName exec params agent annots pg with ⟨pg2, res⟩
    cases res with
    | ok r =>
      rcases executeToolInner_shape toolName exec params agent annots pg with ⟨t, ht⟩ | ⟨m, hm⟩
      · rw [hs] at ht
        simp at ht
        subst ht
        refine ⟨t, ?_⟩
        simp [executeTool, hs]
      · rw [hs] at hm
        simp at hm
    | error m =>
      refine ⟨"Error executing \"" ++ toolName ++ "\": " ++ m, ?_⟩
      simp [executeTool, hs]
  · intro m hm
    rcases hs : executeToolInner toolName exec params agent annots pg with ⟨pg2, res⟩
    rw [hs] at hm
    cases res with
    | ok r => simp at hm
    | error m2 =>
      simp at hm
      subst hm
      simp [executeTool, hs]

/-- Witness for C1: a required result wait on an absent element makes the
inner execution throw; the boundary converts it into a textual tool
failure naming the tool. -/
theorem c1_witness :
    (executeTool "t" requiredWaitExec [] none none { dom := helloDom }).2 =
      mcpResult ("Error executing \"" ++ "t" ++ "\": " ++ "Timeout waiting for #zz") :=
  (c1_failure_boundary "t" requiredWaitExec [] none none { dom := helloDom }).2
    "Timeout waiting for #zz" (by rfl)

/-- C5 counterexample: with steps `[extract #a, wait #b]` over a document
where `#a` holds "hello", the last NON-NULL step result is the extracted
"hello", but the interpreter overwrites `lastResult` with every step —
including null ones — so the final wait's null result yields the generic
"Executed t" text, not "hello". -/
theorem c5_counterexample :
    (executeToolInner "t" extractThenWaitExec [] none none { dom := helloDom }).2 =
      .ok (mcpResult "Executed t") ∧
    lastNonNullResult
      (executeStepsTrace (extractThenWaitExec.steps.getD []) [] { dom := helloDom }).2 =
      some (.s "hello") ∧
    mcpResult "Executed t" ≠ mcpResult (stepValString (.s "hello")) := by
  refine ⟨by rfl, by rfl, by decide⟩

/-- C5 (amended): for a non-empty multi-step execution that the
destructive gate does not cancel, the overall result text is the string
form of the FINAL step's result when that result is non-null, and the
generic executed message otherwise. -/
theorem c5_last_step_result (toolName : String) (exec : ExecutionDescriptor)
    (params : Params) (agent : Option Bool) (annots : Option (List (String × String)))
    (pg : Page) (st : ActionStep) (sts : List ActionStep)
    (hsteps : exec.steps = some (st :: sts))
    (hgate : ¬(agent = some false ∧ lookupAnnot annots "destructiveHint" = some "true")) :
    executeToolInner toolName exec params agent annots pg =
      ((executeSteps (st :: sts) params pg).1,
       .ok (mcpResult (match (executeSteps (st :: sts) params pg).2 with
         | some v => stepValString v
         | none => "Executed " ++ toolName))) := by
  have hmain : executeToolMain toolName exec params pg =
      ((executeSteps (st :: sts) params pg).1,
       .ok (mcpResult (match (executeSteps (st :: sts) params pg).2 with
         | some v => stepValString v
         | none => "Executed " ++ toolName))) := by
    unfold executeToolMain
    rw [hsteps]
  rw [executeToolInner]
  by_cases hg : agent.isSome ∧ lookupAnnot annots "destructiveHint" = some "true"
  · rcases hg with ⟨hag, hdest⟩
    obtain ⟨b, hb⟩ := Option.isSome_iff_exists.mp hag
    cases b with
    | false => exact absurd ⟨hb, hdest⟩ hgate
    | true => simp [hb, hdest, hmain]
  · have : ¬(agent.isSome && lookupAnnot annots "destructiveHint" = some "true") = true := by
      simpa [Bool.and_eq_true, decide_eq_true_eq] using hg
    rw [if_neg this]
    exact hmain

/-- Witness for C5 (amended) at the extract-then-wait scenario: the final
step's result is null, so the text is the generic executed message. -/
theorem c5_witness :
    executeToolInner "t" extractThenWaitExec [] none none { dom := helloDom } =
      ((executeSteps [.extract "#a" "text" none, .wait "#b" (some "hidden") none]
          [] { dom := helloDom }).1,
       .ok (mcpResult "Executed t")) :=
  (c5_last_step_result "t" extractThenWaitExec [] none none { dom := helloDom }
    _ _ rfl (by simp)).trans (by rfl)

/-- C6 counterexample: a destructive-annotated tool invoked WITHOUT an
agent handle does not return the cancellation message — the gate is
skipped, the steps run, and the fill step mutates the document. -/
theorem c6_counterexample :
    executeTool "del" fillStepExec [] none (some [("destructiveHint", "true")])
      { dom := inputDom } =
      ({ dom := [.el { tagName := "input", value := "pwned" } [] none] },
       mcpResult "Executed del") ∧
    mcpResult "Executed del" ≠ mcpResult ("Tool \"del\" cancelled by user.") ∧
    [DNode.el { tagName := "input", value := "pwned" } [] none] ≠ inputDom := by
  refine ⟨by rfl, by decide, ?_⟩
  intro h
  rw [inputDom] at h
  injection h with h1 _
  injection h1 with hd _ _
  exact absurd hd (by decide)

/-- C6 (amended): when the tool is annotated destructive AND an agent
handle is supplied, a negative confirmation outcome returns the
cancellation result naming the tool with the page untouched and no step
run; when no agent handle is supplied the confirmation gate is skipped
entirely and execution proceeds as if the tool were not destructive. -/
theorem c6_destructive_gate (toolName : String) (exec : ExecutionDescriptor)
    (params : Params) (annots : Option (List (String × String))) (pg : Page)
    (hd : lookupAnnot annots "destructiveHint" = some "true") :
    executeToolInner toolName exec params (some false) annots pg =
      (pg, .ok (mcpResult ("Tool \"" ++ toolName ++ "\" cancelled by user."))) ∧
    executeToolInner toolName exec params none annots pg =
      executeToolMain toolName exec params pg := by
  constructor <;> simp [executeToolInner, hd]

/-- Witness for C6 (amended): concrete denial — the destructive tool with
an agent answering no returns the cancellation text and leaves the page
unchanged. -/
theorem c6_witness :
    executeToolInner "del" fillStepExec [] (some false)
      (some [("destructiveHint", "true")]) { dom := inputDom } =
      ({ dom := inputDom },
       .ok (mcpResult ("Tool \"" ++ "del" ++ "\" cancelled by user."))) :=
  (c6_destructive_gate "del" fillStepExec [] (some [("destructiveHint", "true")])
    { dom := inputDom } (by rfl)).1

/-- C10: a field whose parameter is absent from the parameter map is
skipped entirely by the simple-mode fields loop — the document is
untouched, no warning accumulates, and the field's `defaultValue` and
`required` flags never come into play. -/
theorem c10_missing_param_skips_field (f : ToolField) (fs : List ToolField)
    (params : Params) (dom : List DNode)
    (h : pget params f.name = none) :
    runFields (f :: fs) params dom = runFields fs params dom ∧
    runFields [f] params dom = (dom, []) := by
  constructor <;> simp [runFields, h]

/-- Witness for C10: a required field with a default value whose
parameter is missing leaves the document as-is and produces no warning. -/
theorem c10_witness :
    runFields [requiredDefaultField] [("other", .str "1")] helloDom = (helloDom, []) :=
  (c10_missing_param_skips_field requiredDefaultField [] [("other", .str "1")] helloDom
    (by rfl)).2

end WebMcp



